import Mathlib

/-!
# Periodic background command runner (`background.go`, `command.go`)

Shallow embedding of the `app` package: the `BackgroundCommand` record, its
constructor with functional options, the atomic stop flag, and the `Run` loop.

`Run` blocks at two places, the receive `<-t.C` and the call to
`Execute`.  It is embedded as a deterministic machine: `start` performs the
code of `Run` up to its first blocking point, and `step` consumes one event of
the environment (a tick delivered by the ticker, `Execute` returning, or a
`Stop()` call by any thread of control) and performs the code up to the next
blocking point.  Calls made on the collaborators (logger, counter, histogram,
command, ticker) are appended to a trace in program order.
-/

namespace App

/-! ## Data model -/

/-- Go `time.Duration`: a signed count of nanoseconds. -/
abbrev Duration := Int

def Nanosecond : Duration := 1
def Microsecond : Duration := 1000 * Nanosecond
def Millisecond : Duration := 1000 * Microsecond
def Second : Duration := 1000 * Millisecond

/-- Value of `error` when it is not nil, identified by its message. -/
abbrev Error := String

/-- The `Command` interface of `command.go`: an object with one method `Execute`.
The runner only holds the reference; what `Execute` does is the environment's business. -/
structure Command where
  id : Nat
deriving DecidableEq

/-- A `log.Logger`: either the value of `log.NewNopLogger()` or a sink given by the caller. -/
inductive Logger where
  | nop
  | sink (id : Nat)
deriving DecidableEq

/-- A `metrics.Counter`: either the value of `discard.NewCounter()` or a sink given by the caller. -/
inductive Counter where
  | discard
  | sink (id : Nat)
deriving DecidableEq

/-- A `metrics.Histogram`: either the value of `discard.NewHistogram()` or a sink given by the caller. -/
inductive Histogram where
  | discard
  | sink (id : Nat)
deriving DecidableEq

/-- The struct `BackgroundCommand` (background.go:14-21). `stopped` is the `int32` flag. -/
structure BackgroundCommand where
  command : Command
  interval : Duration
  log : Logger
  executionsCounter : Counter
  executionDurationHistogram : Histogram
  stopped : Int
deriving DecidableEq

/-- The type `BackgroundCommandOption` (background.go:39): `func(*BackgroundCommand)`,
a mutation of the record, here a function from the old record to the new one. -/
abbrev BackgroundCommandOption := BackgroundCommand → BackgroundCommand

/-- Constructor `NewBackgroundCommand` (background.go:23-37): the literal with the defaults
(`stopped` has the zero value), then every option applied in the order of the list. -/
def NewBackgroundCommand (cmd : Command) (opts : List BackgroundCommandOption) :
    BackgroundCommand :=
  opts.foldl (fun c opt => opt c)
    { command := cmd
      interval := Millisecond * 200
      log := Logger.nop
      executionsCounter := Counter.discard
      executionDurationHistogram := Histogram.discard
      stopped := 0 }

/-- Option `BackgroundCommandWithInterval` (background.go:42-46). -/
def BackgroundCommandWithInterval (interval : Duration) : BackgroundCommandOption :=
  fun bg => { bg with interval := interval }

/-- Option `BackgroundCommandWithLogger` (background.go:48-52). -/
def BackgroundCommandWithLogger (l : Logger) : BackgroundCommandOption :=
  fun bg => { bg with log := l }

/-- Option `BackgroundCommandWithExecutionDurationHistogramCounter` (background.go:54-58). -/
def BackgroundCommandWithExecutionDurationHistogramCounter (h : Histogram) :
    BackgroundCommandOption :=
  fun bg => { bg with executionDurationHistogram := h }

/-- Method `isStopped` (background.go:83-85): atomic load of the flag, compared with 0. -/
def BackgroundCommand.isStopped (c : BackgroundCommand) : Bool :=
  c.stopped != 0

/-- Method `Stop` (background.go:87-89): atomic store of 1 into the flag. -/
def BackgroundCommand.Stop (c : BackgroundCommand) : BackgroundCommand :=
  { c with stopped := 1 }

/-! ## Descriptions of option lists -/

/-- A call of one of the three option constructors of the package, with its argument. -/
inductive OptionCall where
  | withInterval (interval : Duration)
  | withLogger (l : Logger)
  | withHistogram (h : Histogram)
deriving DecidableEq

/-- The option value that the call produces. -/
def OptionCall.toOption : OptionCall → BackgroundCommandOption
  | .withInterval d => BackgroundCommandWithInterval d
  | .withLogger l => BackgroundCommandWithLogger l
  | .withHistogram h => BackgroundCommandWithExecutionDurationHistogramCounter h

def OptionCall.intervalArg : OptionCall → Option Duration
  | .withInterval d => some d
  | _ => none

def OptionCall.loggerArg : OptionCall → Option Logger
  | .withLogger l => some l
  | _ => none

def OptionCall.histogramArg : OptionCall → Option Histogram
  | .withHistogram h => some h
  | _ => none

/-- Argument of the last call in the list for which `sel` answers, if there is one. -/
def lastArg {α : Type} (sel : OptionCall → Option α) (calls : List OptionCall) : Option α :=
  calls.reverse.findSome? sel

/-! ## Collaborator calls and the timer of go-kit `metrics` -/

inductive Level where
  | info
  | error
deriving DecidableEq

/-- One call made by `Run` on a collaborator, or one of its own reads of the flag. -/
inductive Event where
  /-- Call `level.Info(l).Log(keyvals...)` or `level.Error(l).Log(keyvals...)` -/
  | log (l : Logger) (lvl : Level) (keyvals : List (String × String))
  /-- Call `time.NewTicker(d)` that returned a ticker -/
  | newTicker (d : Duration)
  /-- the deferred `t.Stop()` -/
  | tickerStop
  /-- the loop condition called `isStopped()` and got `v` -/
  | isStoppedRead (v : Bool)
  /-- the receive `<-t.C` completed -/
  | tickReceived
  /-- Call `c.Add(delta)` -/
  | counterAdd (c : Counter) (delta : Int)
  /-- Call `cmd.Execute(context.Background())`, at its start -/
  | execute (cmd : Command)
  /-- Call `h.Observe(elapsed / unit)`, the elapsed time being that of the call to `Execute` -/
  | observe (h : Histogram) (unit : Duration)
deriving DecidableEq

/-- A `metrics.Timer`: the histogram it reports to and its unit. -/
structure Timer where
  h : Histogram
  u : Duration
deriving DecidableEq

/-- The go-kit `metrics.NewTimer`: the unit starts as one second. -/
def NewTimer (h : Histogram) : Timer := { h := h, u := Second }

/-- The go-kit `(*Timer).Unit`. -/
def Timer.Unit (t : Timer) (u : Duration) : Timer := { t with u := u }

/-- The go-kit `(*Timer).ObserveDuration`: one observation on the timer's histogram,
the elapsed time divided by the timer's unit. -/
def Timer.ObserveDuration (t : Timer) : Event := Event.observe t.h t.u

/-- A `time.Ticker` with its period. -/
structure Ticker where
  d : Duration
deriving DecidableEq

/-- The standard library `time.NewTicker`: it panics when the period is not positive
("non-positive interval for NewTicker"); `none` stands for the panic. -/
def NewTicker (d : Duration) : Option Ticker :=
  if d ≤ 0 then none else some { d := d }

/-! ## The `Run` loop -/

/-- Where the thread of control that called `Run` is. -/
inductive PC where
  /-- blocked in `<-t.C` (background.go:67) -/
  | awaitingTick
  /-- blocked in `bg.command.Execute` (background.go:73), holding the timer of line 70 -/
  | executing (timer : Timer)
  /-- returned from `Run` -/
  | returned
  /-- left `Run` by the panic of `time.NewTicker` -/
  | panicked
deriving DecidableEq

structure RunState where
  bg : BackgroundCommand
  pc : PC
  trace : List Event
deriving DecidableEq

/-- An event of the environment of the thread running `Run`. -/
inductive Input where
  /-- the ticker delivers a tick to the pending receive `<-t.C` -/
  | tick
  /-- the pending call to `Execute` returns `err` (`none` is nil) -/
  | execReturns (err : Option Error)
  /-- some thread of control, possibly the command itself, calls `Stop()` -/
  | stop
deriving DecidableEq

/-- The loop condition `for !bg.isStopped()` (background.go:66) and, when it fails, the
rest of `Run`: line 80 and the deferred `t.Stop()`. -/
def loopCheck (bg : BackgroundCommand) (trace : List Event) : RunState :=
  if bg.isStopped then
    { bg := bg
      pc := PC.returned
      trace := trace ++ [Event.isStoppedRead true,
        Event.log bg.log Level.info [("msg", "stopping background process")],
        Event.tickerStop] }
  else
    { bg := bg, pc := PC.awaitingTick, trace := trace ++ [Event.isStoppedRead false] }

/-- The method `Run` up to its first blocking point (background.go:61-66). -/
def BackgroundCommand.start (bg : BackgroundCommand) : RunState :=
  match NewTicker bg.interval with
  | none =>
    { bg := bg
      pc := PC.panicked
      trace := [Event.log bg.log Level.info [("msg", "running background process")]] }
  | some t =>
    loopCheck bg
      [Event.log bg.log Level.info [("msg", "running background process")],
       Event.newTicker t.d]

/-- The log call of background.go:74-76. -/
def errorEntries (l : Logger) : Option Error → List Event
  | none => []
  | some e => [Event.log l Level.error [("msg", "command error"), ("err", e)]]

/-- One event of the environment and the code of `Run` that it releases.
An event that the current control point does not wait for leaves the state as it is. -/
def step (s : RunState) : Input → RunState
  | Input.stop => { s with bg := s.bg.Stop }
  | Input.tick =>
    match s.pc with
    | PC.awaitingTick =>
      -- background.go:69-73
      { s with
        pc := PC.executing ((NewTimer s.bg.executionDurationHistogram).Unit Millisecond)
        trace := s.trace ++ [Event.tickReceived,
          Event.counterAdd s.bg.executionsCounter 1,
          Event.execute s.bg.command] }
    | _ => s
  | Input.execReturns err =>
    match s.pc with
    | PC.executing timer =>
      -- background.go:74-77, then back to the loop condition
      loopCheck s.bg (s.trace ++ errorEntries s.bg.log err ++ [timer.ObserveDuration])
    | _ => s

/-- The method `Run` (background.go:60-81) under a schedule of environment events. -/
def BackgroundCommand.Run (bg : BackgroundCommand) (schedule : List Input) : RunState :=
  schedule.foldl step bg.start

/-! ## Measures on traces -/

def Event.addDelta : Event → Int
  | .counterAdd _ d => d
  | _ => 0

/-- Total of the deltas passed to `Add`. -/
def counterTotal (tr : List Event) : Int := (tr.map Event.addDelta).sum

def Event.isAdd : Event → Bool
  | .counterAdd _ _ => true
  | _ => false

def Event.isTick : Event → Bool
  | .tickReceived => true
  | _ => false

def Event.isExecute : Event → Bool
  | .execute _ => true
  | _ => false

def Event.isObserve : Event → Bool
  | .observe _ _ => true
  | _ => false

def Event.isRead : Event → Bool
  | .isStoppedRead _ => true
  | _ => false

def Event.isLog : Event → Bool
  | .log _ _ _ => true
  | _ => false

def Event.isErrorLog : Event → Bool
  | .log _ Level.error _ => true
  | _ => false

def addCount (tr : List Event) : Nat := tr.countP Event.isAdd
def tickCount (tr : List Event) : Nat := tr.countP Event.isTick
def executeCount (tr : List Event) : Nat := tr.countP Event.isExecute
def observeCount (tr : List Event) : Nat := tr.countP Event.isObserve
def readCount (tr : List Event) : Nat := tr.countP Event.isRead
def logEntries (tr : List Event) : List Event := tr.filter Event.isLog
def errorLogEntries (tr : List Event) : List Event := tr.filter Event.isErrorLog

/-- The schedule in which nobody calls `Stop()`: one tick and one return of `Execute` for
each outcome of the list. -/
def rounds : List (Option Error) → List Input
  | [] => []
  | r :: rs => Input.tick :: Input.execReturns r :: rounds rs

/-! ## The shape of a trace of `Run` -/

/-- Calls of background.go:61-63 when the ticker is created. -/
def header (bg : BackgroundCommand) : List Event :=
  [Event.log bg.log Level.info [("msg", "running background process")],
   Event.newTicker bg.interval]

/-- Calls of one full pass through the loop in which `Execute` returned `r`: the read of the
flag by the loop condition, the receive of the tick, and background.go:69-77. -/
def iteration (bg : BackgroundCommand) (r : Option Error) : List Event :=
  [Event.isStoppedRead false, Event.tickReceived,
   Event.counterAdd bg.executionsCounter 1, Event.execute bg.command] ++
  errorEntries bg.log r ++
  [Event.observe bg.executionDurationHistogram Millisecond]

/-- Full passes through the loop, one for each outcome of `Execute`, in order. -/
def iterations (bg : BackgroundCommand) : List (Option Error) → List Event
  | [] => []
  | r :: rs => iteration bg r ++ iterations bg rs

/-- Calls after the last full pass, by control point. -/
def pending (bg : BackgroundCommand) : PC → List Event
  | PC.awaitingTick => [Event.isStoppedRead false]
  | PC.executing _ =>
    [Event.isStoppedRead false, Event.tickReceived,
     Event.counterAdd bg.executionsCounter 1, Event.execute bg.command]
  | PC.returned =>
    [Event.isStoppedRead true,
     Event.log bg.log Level.info [("msg", "stopping background process")],
     Event.tickerStop]
  | PC.panicked => []

/-- The trace of a run that made the full passes `rs` and is at control point `pc`. -/
def expectedTrace (bg : BackgroundCommand) (rs : List (Option Error)) : PC → List Event
  | PC.panicked => [Event.log bg.log Level.info [("msg", "running background process")]]
  | pc => header bg ++ iterations bg rs ++ pending bg pc

/-- Number of calls of `Execute` that have not returned at a control point. -/
def inFlight : PC → Nat
  | PC.executing _ => 1
  | _ => 0

/-- Number of evaluations of the loop condition not followed by a full pass. -/
def openChecks : PC → Nat
  | PC.panicked => 0
  | _ => 1

/-- Number of calls of `Execute` that can still begin once the flag is set. -/
def mayBegin : PC → Nat
  | PC.awaitingTick => 1
  | _ => 0

/-- What a call in a trace of a run of `bg` is, by kind: `Add(1)` on the counter of `bg`, an
observation in milliseconds on its histogram, `Execute` of its command, an error entry on
its logger. -/
def wellFormed (bg : BackgroundCommand) (e : Event) : Prop :=
  (e.isAdd = true → e = Event.counterAdd bg.executionsCounter 1) ∧
  (e.isObserve = true → e = Event.observe bg.executionDurationHistogram Millisecond) ∧
  (e.isExecute = true → e = Event.execute bg.command) ∧
  (e.isErrorLog = true →
    ∃ err, e = Event.log bg.log Level.error [("msg", "command error"), ("err", err)])

/-- Two records differ at most in the stop flag. -/
def sameConfig (a b : BackgroundCommand) : Prop :=
  a.command = b.command ∧ a.interval = b.interval ∧ a.log = b.log ∧
  a.executionsCounter = b.executionsCounter ∧
  a.executionDurationHistogram = b.executionDurationHistogram

/-- What holds of every state of a run of `bg0.Run`. -/
structure Shape (bg0 : BackgroundCommand) (s : RunState) (rs : List (Option Error)) : Prop where
  config : sameConfig s.bg bg0
  mono : bg0.isStopped = true → s.bg.isStopped = true
  trace_eq : s.trace = expectedTrace bg0 rs s.pc
  timer_eq : ∀ t, s.pc = PC.executing t →
    t = { h := bg0.executionDurationHistogram, u := Millisecond }
  returned_stopped : s.pc = PC.returned → s.bg.isStopped = true
  panicked_iff : s.pc = PC.panicked ↔ bg0.interval ≤ 0
  panicked_nil : s.pc = PC.panicked → rs = []

/-! ## Construction: helper lemmas -/

theorem NewBackgroundCommand_snoc (cmd : Command) (opts : List BackgroundCommandOption)
    (o : BackgroundCommandOption) :
    NewBackgroundCommand cmd (opts ++ [o]) = o (NewBackgroundCommand cmd opts) := by
  simp [NewBackgroundCommand, List.foldl_append]

theorem lastArg_snoc {α : Type} (sel : OptionCall → Option α) (calls : List OptionCall)
    (a : OptionCall) :
    lastArg sel (calls ++ [a]) = match sel a with
      | some x => some x
      | none => lastArg sel calls := by
  cases h : sel a <;> simp [lastArg, List.findSome?_cons, h]

theorem toOption_frame (a : OptionCall) (bg : BackgroundCommand) :
    (a.toOption bg).command = bg.command ∧
    (a.toOption bg).executionsCounter = bg.executionsCounter ∧
    (a.toOption bg).stopped = bg.stopped := by
  cases a <;> simp [OptionCall.toOption, BackgroundCommandWithInterval,
    BackgroundCommandWithLogger, BackgroundCommandWithExecutionDurationHistogramCounter]

theorem toOption_interval (a : OptionCall) (bg : BackgroundCommand) :
    (a.toOption bg).interval = (a.intervalArg).getD bg.interval := by
  cases a <;> rfl

theorem toOption_log (a : OptionCall) (bg : BackgroundCommand) :
    (a.toOption bg).log = (a.loggerArg).getD bg.log := by
  cases a <;> rfl

theorem toOption_histogram (a : OptionCall) (bg : BackgroundCommand) :
    (a.toOption bg).executionDurationHistogram =
      (a.histogramArg).getD bg.executionDurationHistogram := by
  cases a <;> rfl

theorem New_interval (cmd : Command) (calls : List OptionCall) :
    (NewBackgroundCommand cmd (calls.map OptionCall.toOption)).interval =
      (lastArg OptionCall.intervalArg calls).getD 200000000 := by
  induction calls using List.reverseRecOn with
  | nil => simp [NewBackgroundCommand, lastArg, Millisecond, Microsecond, Nanosecond]
  | append_singleton calls a ih =>
    rw [List.map_append, List.map_singleton, NewBackgroundCommand_snoc, toOption_interval,
      lastArg_snoc, ih]
    cases h : a.intervalArg <;> simp

theorem New_log (cmd : Command) (calls : List OptionCall) :
    (NewBackgroundCommand cmd (calls.map OptionCall.toOption)).log =
      (lastArg OptionCall.loggerArg calls).getD Logger.nop := by
  induction calls using List.reverseRecOn with
  | nil => simp [NewBackgroundCommand, lastArg]
  | append_singleton calls a ih =>
    rw [List.map_append, List.map_singleton, NewBackgroundCommand_snoc, toOption_log,
      lastArg_snoc, ih]
    cases h : a.loggerArg <;> simp

theorem New_histogram (cmd : Command) (calls : List OptionCall) :
    (NewBackgroundCommand cmd (calls.map OptionCall.toOption)).executionDurationHistogram =
      (lastArg OptionCall.histogramArg calls).getD Histogram.discard := by
  induction calls using List.reverseRecOn with
  | nil => simp [NewBackgroundCommand, lastArg]
  | append_singleton calls a ih =>
    rw [List.map_append, List.map_singleton, NewBackgroundCommand_snoc, toOption_histogram,
      lastArg_snoc, ih]
    cases h : a.histogramArg <;> simp

theorem New_frame (cmd : Command) (calls : List OptionCall) :
    (NewBackgroundCommand cmd (calls.map OptionCall.toOption)).command = cmd ∧
    (NewBackgroundCommand cmd (calls.map OptionCall.toOption)).executionsCounter =
      Counter.discard ∧
    (NewBackgroundCommand cmd (calls.map OptionCall.toOption)).stopped = 0 := by
  induction calls using List.reverseRecOn with
  | nil => simp [NewBackgroundCommand]
  | append_singleton calls a ih =>
    rw [List.map_append, List.map_singleton, NewBackgroundCommand_snoc]
    obtain ⟨h1, h2, h3⟩ := toOption_frame a
      (NewBackgroundCommand cmd (calls.map OptionCall.toOption))
    rw [h1, h2, h3]
    exact ih

/-! ## Construction: the claims -/

/-- C7: `NewBackgroundCommand` applies the options in the order of the list (the result for
a list extended by one option is that option applied to the result for the list), and for
every list of calls of the three option constructors the interval, the logger and the
histogram of the result are the argument of the last call for that field, whatever the
value, or else the default: 200 milliseconds (200000000 ns), the no-op logger, the no-op
histogram. With no option every field has its default. -/
theorem NewBackgroundCommand_last_option_wins (cmd : Command) (calls : List OptionCall) :
    (∀ o : BackgroundCommandOption,
        NewBackgroundCommand cmd (calls.map OptionCall.toOption ++ [o]) =
          o (NewBackgroundCommand cmd (calls.map OptionCall.toOption))) ∧
    (NewBackgroundCommand cmd (calls.map OptionCall.toOption)).interval =
      (lastArg OptionCall.intervalArg calls).getD 200000000 ∧
    (NewBackgroundCommand cmd (calls.map OptionCall.toOption)).log =
      (lastArg OptionCall.loggerArg calls).getD Logger.nop ∧
    (NewBackgroundCommand cmd (calls.map OptionCall.toOption)).executionDurationHistogram =
      (lastArg OptionCall.histogramArg calls).getD Histogram.discard ∧
    NewBackgroundCommand cmd [] =
      { command := cmd, interval := 200000000, log := Logger.nop,
        executionsCounter := Counter.discard,
        executionDurationHistogram := Histogram.discard, stopped := 0 } :=
  ⟨fun o => NewBackgroundCommand_snoc cmd _ o, New_interval cmd calls, New_log cmd calls,
    New_histogram cmd calls, by
      simp [NewBackgroundCommand, Millisecond, Microsecond, Nanosecond]⟩

/-- C8: each of the three options changes its own field only (the result is the argument
record with that one field replaced), and for every command and every list of calls of
these options the record returned by `NewBackgroundCommand` holds the command passed in,
the no-op counter, and an unset stop flag. -/
theorem options_frame (cmd : Command) (calls : List OptionCall) :
    (∀ (bg : BackgroundCommand) (d : Duration),
        BackgroundCommandWithInterval d bg =
          { command := bg.command, interval := d, log := bg.log,
            executionsCounter := bg.executionsCounter,
            executionDurationHistogram := bg.executionDurationHistogram,
            stopped := bg.stopped }) ∧
    (∀ (bg : BackgroundCommand) (l : Logger),
        BackgroundCommandWithLogger l bg =
          { command := bg.command, interval := bg.interval, log := l,
            executionsCounter := bg.executionsCounter,
            executionDurationHistogram := bg.executionDurationHistogram,
            stopped := bg.stopped }) ∧
    (∀ (bg : BackgroundCommand) (h : Histogram),
        BackgroundCommandWithExecutionDurationHistogramCounter h bg =
          { command := bg.command, interval := bg.interval, log := bg.log,
            executionsCounter := bg.executionsCounter,
            executionDurationHistogram := h,
            stopped := bg.stopped }) ∧
    (NewBackgroundCommand cmd (calls.map OptionCall.toOption)).command = cmd ∧
    (NewBackgroundCommand cmd (calls.map OptionCall.toOption)).executionsCounter =
      Counter.discard ∧
    (NewBackgroundCommand cmd (calls.map OptionCall.toOption)).stopped = 0 ∧
    (NewBackgroundCommand cmd (calls.map OptionCall.toOption)).isStopped = false := by
  refine ⟨fun _ _ => rfl, fun _ _ => rfl, fun _ _ => rfl, (New_frame cmd calls).1,
    (New_frame cmd calls).2.1, (New_frame cmd calls).2.2, ?_⟩
  simp [BackgroundCommand.isStopped, (New_frame cmd calls).2.2]

/-! ## The run loop: helper lemmas -/

theorem iterations_snoc (bg : BackgroundCommand) (rs : List (Option Error))
    (r : Option Error) :
    iterations bg (rs ++ [r]) = iterations bg rs ++ iteration bg r := by
  induction rs with
  | nil => simp [iterations]
  | cons a rs ih => simp [iterations, ih]

theorem loopCheck_bg (bg : BackgroundCommand) (tr : List Event) :
    (loopCheck bg tr).bg = bg := by
  unfold loopCheck; split <;> rfl

theorem loopCheck_pc (bg : BackgroundCommand) (tr : List Event) :
    (loopCheck bg tr).pc = if bg.isStopped then PC.returned else PC.awaitingTick := by
  unfold loopCheck; split <;> rfl

theorem loopCheck_trace (bg : BackgroundCommand) (tr : List Event) :
    (loopCheck bg tr).trace =
      tr ++ pending bg (if bg.isStopped then PC.returned else PC.awaitingTick) := by
  unfold loopCheck; split <;> rfl

theorem pending_config {a b : BackgroundCommand} (h : sameConfig a b) (pc : PC) :
    pending a pc = pending b pc := by
  obtain ⟨h1, _, h3, h4, _⟩ := h
  cases pc <;> simp [pending, h1, h3, h4]

theorem isStopped_Stop (bg : BackgroundCommand) : bg.Stop.isStopped = true := by
  simp [BackgroundCommand.Stop, BackgroundCommand.isStopped]

theorem sameConfig_Stop (bg : BackgroundCommand) : sameConfig bg.Stop bg :=
  ⟨rfl, rfl, rfl, rfl, rfl⟩

theorem start_shape (bg : BackgroundCommand) : Shape bg bg.start [] := by
  unfold BackgroundCommand.start NewTicker
  by_cases hd : bg.interval ≤ 0
  · rw [if_pos hd]
    exact ⟨⟨rfl, rfl, rfl, rfl, rfl⟩, fun h => h, rfl, fun t h => (by cases h),
      fun h => (by cases h), ⟨fun _ => hd, fun _ => rfl⟩, fun _ => rfl⟩
  · rw [if_neg hd]
    refine ⟨?_, ?_, ?_, ?_, ?_, ?_, ?_⟩
    · rw [loopCheck_bg]; exact ⟨rfl, rfl, rfl, rfl, rfl⟩
    · rw [loopCheck_bg]; exact fun h => h
    · rw [loopCheck_trace, loopCheck_pc]
      split <;> simp [expectedTrace, header, iterations]
    · intro t h; rw [loopCheck_pc] at h; split at h <;> cases h
    · intro h; rw [loopCheck_pc] at h; rw [loopCheck_bg]
      by_cases hs : bg.isStopped = true
      · exact hs
      · simp [hs] at h
    · rw [loopCheck_pc]
      constructor
      · intro h; split at h <;> cases h
      · intro h; exact absurd h hd
    · intro _; rfl

theorem step_shape (bg0 : BackgroundCommand) (s : RunState) (rs : List (Option Error))
    (i : Input) (hs : Shape bg0 s rs) :
    ∃ rs', Shape bg0 (step s i) rs' := by
  cases i with
  | stop =>
    refine ⟨rs, ?_⟩
    simp only [step]
    exact ⟨hs.config, fun _ => isStopped_Stop _, hs.trace_eq, hs.timer_eq,
      fun _ => isStopped_Stop _, hs.panicked_iff, hs.panicked_nil⟩
  | tick =>
    cases hpc : s.pc with
    | awaitingTick =>
      refine ⟨rs, ?_⟩
      simp only [step, hpc]
      obtain ⟨c1, c2, c3, c4, c5⟩ := hs.config
      have htr := hs.trace_eq
      rw [hpc] at htr
      refine ⟨hs.config, hs.mono, ?_, ?_, ?_, ?_, ?_⟩
      · simp [htr, expectedTrace, pending, c1, c4]
      · intro t ht
        simp only [PC.executing.injEq] at ht
        rw [← ht, c5]; rfl
      · intro h; cases h
      · have := hs.panicked_iff
        rw [hpc] at this
        simp only [false_iff] at this ⊢
        simpa using this
      · intro h; cases h
    | executing t => exact ⟨rs, by simpa [step, hpc] using hs⟩
    | returned => exact ⟨rs, by simpa [step, hpc] using hs⟩
    | panicked => exact ⟨rs, by simpa [step, hpc] using hs⟩
  | execReturns err =>
    cases hpc : s.pc with
    | executing t =>
      refine ⟨rs ++ [err], ?_⟩
      simp only [step, hpc]
      obtain ⟨c1, c2, c3, c4, c5⟩ := hs.config
      have htr := hs.trace_eq
      rw [hpc] at htr
      have ht := hs.timer_eq t hpc
      have hnp : ¬ bg0.interval ≤ 0 := by
        have := hs.panicked_iff
        rw [hpc] at this
        simpa using this
      refine ⟨?_, ?_, ?_, ?_, ?_, ?_, ?_⟩
      · rw [loopCheck_bg]; exact hs.config
      · rw [loopCheck_bg]; exact hs.mono
      · rw [loopCheck_trace, loopCheck_pc, pending_config hs.config, htr]
        split <;>
          simp [expectedTrace, pending, iteration, iterations_snoc, ht,
            Timer.ObserveDuration, c3]
      · intro t' h; rw [loopCheck_pc] at h; split at h <;> cases h
      · intro h; rw [loopCheck_pc] at h; rw [loopCheck_bg]
        by_cases hst : s.bg.isStopped = true
        · exact hst
        · simp [hst] at h
      · rw [loopCheck_pc]
        constructor
        · intro h; split at h <;> cases h
        · intro h; exact absurd h hnp
      · intro h; rw [loopCheck_pc] at h; split at h <;> cases h
    | awaitingTick => exact ⟨rs, by simpa [step, hpc] using hs⟩
    | returned => exact ⟨rs, by simpa [step, hpc] using hs⟩
    | panicked => exact ⟨rs, by simpa [step, hpc] using hs⟩

theorem foldl_shape (bg0 : BackgroundCommand) (schedule : List Input) (s : RunState)
    (rs : List (Option Error)) (hs : Shape bg0 s rs) :
    ∃ rs', Shape bg0 (schedule.foldl step s) rs' := by
  induction schedule generalizing s rs with
  | nil => exact ⟨rs, hs⟩
  | cons i rest ih =>
    obtain ⟨rs1, h1⟩ := step_shape bg0 s rs i hs
    exact ih (step s i) rs1 h1

theorem Run_shape (bg : BackgroundCommand) (schedule : List Input) :
    ∃ rs, Shape bg (bg.Run schedule) rs :=
  foldl_shape bg schedule bg.start [] (start_shape bg)

/-! ### Counting over the trace shape -/

theorem errorEntries_counts (l : Logger) (r : Option Error) :
    tickCount (errorEntries l r) = 0 ∧ addCount (errorEntries l r) = 0 ∧
    executeCount (errorEntries l r) = 0 ∧ observeCount (errorEntries l r) = 0 ∧
    readCount (errorEntries l r) = 0 ∧ counterTotal (errorEntries l r) = 0 := by
  cases r <;>
    simp [errorEntries, tickCount, addCount, executeCount, observeCount, readCount,
      counterTotal, Event.isTick, Event.isAdd, Event.isExecute, Event.isObserve,
      Event.isRead, Event.addDelta]

theorem tickCount_append (a b : List Event) :
    tickCount (a ++ b) = tickCount a + tickCount b := by
  simp [tickCount]

theorem addCount_append (a b : List Event) :
    addCount (a ++ b) = addCount a + addCount b := by
  simp [addCount]

theorem executeCount_append (a b : List Event) :
    executeCount (a ++ b) = executeCount a + executeCount b := by
  simp [executeCount]

theorem observeCount_append (a b : List Event) :
    observeCount (a ++ b) = observeCount a + observeCount b := by
  simp [observeCount]

theorem readCount_append (a b : List Event) :
    readCount (a ++ b) = readCount a + readCount b := by
  simp [readCount]

theorem counterTotal_append (a b : List Event) :
    counterTotal (a ++ b) = counterTotal a + counterTotal b := by
  simp [counterTotal]

theorem iteration_counts (bg : BackgroundCommand) (r : Option Error) :
    tickCount (iteration bg r) = 1 ∧ addCount (iteration bg r) = 1 ∧
    executeCount (iteration bg r) = 1 ∧ observeCount (iteration bg r) = 1 ∧
    readCount (iteration bg r) = 1 ∧ counterTotal (iteration bg r) = 1 := by
  obtain ⟨h1, h2, h3, h4, h5, h6⟩ := errorEntries_counts bg.log r
  unfold iteration
  simp only [tickCount_append, addCount_append, executeCount_append, observeCount_append,
    readCount_append, counterTotal_append, h1, h2, h3, h4, h5, h6]
  simp [tickCount, addCount, executeCount, observeCount, readCount,
      counterTotal, Event.isTick, Event.isAdd, Event.isExecute, Event.isObserve,
      Event.isRead, Event.addDelta]

theorem iterations_counts (bg : BackgroundCommand) (rs : List (Option Error)) :
    tickCount (iterations bg rs) = rs.length ∧ addCount (iterations bg rs) = rs.length ∧
    executeCount (iterations bg rs) = rs.length ∧
    observeCount (iterations bg rs) = rs.length ∧
    readCount (iterations bg rs) = rs.length ∧
    counterTotal (iterations bg rs) = (rs.length : Int) := by
  induction rs with
  | nil =>
    simp [iterations, tickCount, addCount, executeCount, observeCount, readCount,
      counterTotal]
  | cons r rs ih =>
    obtain ⟨h1, h2, h3, h4, h5, h6⟩ := iteration_counts bg r
    obtain ⟨i1, i2, i3, i4, i5, i6⟩ := ih
    simp only [iterations, tickCount_append, addCount_append, executeCount_append,
      observeCount_append, readCount_append, counterTotal_append, h1, h2, h3, h4, h5, h6,
      i1, i2, i3, i4, i5, i6, List.length_cons]
    refine ⟨?_, ?_, ?_, ?_, ?_, ?_⟩ <;> omega

/-- Number of executions begun and not yet returned at a control point. -/
theorem expectedTrace_counts (bg : BackgroundCommand) (rs : List (Option Error)) (pc : PC)
    (hp : pc = PC.panicked → rs = []) :
    tickCount (expectedTrace bg rs pc) = executeCount (expectedTrace bg rs pc) ∧
    addCount (expectedTrace bg rs pc) = executeCount (expectedTrace bg rs pc) ∧
    counterTotal (expectedTrace bg rs pc) = (executeCount (expectedTrace bg rs pc) : Int) ∧
    observeCount (expectedTrace bg rs pc) = rs.length ∧
    executeCount (expectedTrace bg rs pc) =
      rs.length + inFlight pc ∧
    readCount (expectedTrace bg rs pc) = rs.length + openChecks pc := by
  obtain ⟨i1, i2, i3, i4, i5, i6⟩ := iterations_counts bg rs
  cases pc with
  | panicked =>
    simp [hp rfl, expectedTrace, inFlight, openChecks, tickCount, addCount, executeCount, observeCount, readCount,
      counterTotal, Event.isTick, Event.isAdd, Event.isExecute, Event.isObserve,
      Event.isRead, Event.addDelta]
  | awaitingTick =>
    simp only [expectedTrace, tickCount_append, addCount_append, executeCount_append,
      observeCount_append, readCount_append, counterTotal_append, i1, i2, i3, i4, i5, i6]
    simp [header, pending, inFlight, openChecks, tickCount, addCount, executeCount, observeCount, readCount,
      counterTotal, Event.isTick, Event.isAdd, Event.isExecute, Event.isObserve,
      Event.isRead, Event.addDelta]
  | returned =>
    simp only [expectedTrace, tickCount_append, addCount_append, executeCount_append,
      observeCount_append, readCount_append, counterTotal_append, i1, i2, i3, i4, i5, i6]
    simp [header, pending, inFlight, openChecks, tickCount, addCount, executeCount, observeCount, readCount,
      counterTotal, Event.isTick, Event.isAdd, Event.isExecute, Event.isObserve,
      Event.isRead, Event.addDelta]
  | executing t =>
    simp only [expectedTrace, tickCount_append, addCount_append, executeCount_append,
      observeCount_append, readCount_append, counterTotal_append, i1, i2, i3, i4, i5, i6]
    simp [header, pending, inFlight, openChecks, tickCount, addCount, executeCount, observeCount, readCount,
      counterTotal, Event.isTick, Event.isAdd, Event.isExecute, Event.isObserve,
      Event.isRead, Event.addDelta]

/-! ### Which calls a trace contains -/

theorem mem_errorEntries (l : Logger) (r : Option Error) (e : Event)
    (he : e ∈ errorEntries l r) :
    ∃ err, r = some err ∧
      e = Event.log l Level.error [("msg", "command error"), ("err", err)] := by
  cases r with
  | none => simp [errorEntries] at he
  | some err => exact ⟨err, rfl, by simpa [errorEntries] using he⟩

theorem wellFormed_iteration (bg : BackgroundCommand) (r : Option Error) (e : Event)
    (he : e ∈ iteration bg r) : wellFormed bg e := by
  simp only [iteration, List.mem_append, List.mem_cons, List.mem_singleton,
    List.not_mem_nil, or_false] at he
  rcases he with ((h | h | h | h) | h) | h
  · subst h; simp [wellFormed, Event.isAdd, Event.isObserve, Event.isExecute, Event.isErrorLog]
  · subst h; simp [wellFormed, Event.isAdd, Event.isObserve, Event.isExecute, Event.isErrorLog]
  · subst h; simp [wellFormed, Event.isAdd, Event.isObserve, Event.isExecute, Event.isErrorLog]
  · subst h; simp [wellFormed, Event.isAdd, Event.isObserve, Event.isExecute, Event.isErrorLog]
  · obtain ⟨err, _, h⟩ := mem_errorEntries _ _ _ h
    subst h; simp [wellFormed, Event.isAdd, Event.isObserve, Event.isExecute, Event.isErrorLog]
  · subst h; simp [wellFormed, Event.isAdd, Event.isObserve, Event.isExecute, Event.isErrorLog]

theorem wellFormed_iterations (bg : BackgroundCommand) (rs : List (Option Error)) (e : Event)
    (he : e ∈ iterations bg rs) : wellFormed bg e := by
  induction rs with
  | nil => simp [iterations] at he
  | cons r rs ih =>
    simp only [iterations, List.mem_append] at he
    rcases he with h | h
    · exact wellFormed_iteration bg r e h
    · exact ih h

theorem wellFormed_expectedTrace (bg : BackgroundCommand) (rs : List (Option Error)) (pc : PC)
    (e : Event) (he : e ∈ expectedTrace bg rs pc) : wellFormed bg e := by
  cases pc with
  | panicked =>
    simp only [expectedTrace, List.mem_singleton] at he
    subst he; simp [wellFormed, Event.isAdd, Event.isObserve, Event.isExecute, Event.isErrorLog]
  | awaitingTick =>
    simp only [expectedTrace, header, pending, List.mem_append, List.mem_cons,
      List.mem_singleton, List.not_mem_nil, or_false] at he
    rcases he with ((h | h) | h) | h
    · subst h; simp [wellFormed, Event.isAdd, Event.isObserve, Event.isExecute, Event.isErrorLog]
    · subst h; simp [wellFormed, Event.isAdd, Event.isObserve, Event.isExecute, Event.isErrorLog]
    · exact wellFormed_iterations bg rs e h
    · subst h; simp [wellFormed, Event.isAdd, Event.isObserve, Event.isExecute, Event.isErrorLog]
  | returned =>
    simp only [expectedTrace, header, pending, List.mem_append, List.mem_cons,
      List.mem_singleton, List.not_mem_nil, or_false] at he
    rcases he with ((h | h) | h) | (h | h | h)
    · subst h; simp [wellFormed, Event.isAdd, Event.isObserve, Event.isExecute, Event.isErrorLog]
    · subst h; simp [wellFormed, Event.isAdd, Event.isObserve, Event.isExecute, Event.isErrorLog]
    · exact wellFormed_iterations bg rs e h
    · subst h; simp [wellFormed, Event.isAdd, Event.isObserve, Event.isExecute, Event.isErrorLog]
    · subst h; simp [wellFormed, Event.isAdd, Event.isObserve, Event.isExecute, Event.isErrorLog]
    · subst h; simp [wellFormed, Event.isAdd, Event.isObserve, Event.isExecute, Event.isErrorLog]
  | executing t =>
    simp only [expectedTrace, header, pending, List.mem_append, List.mem_cons,
      List.mem_singleton, List.not_mem_nil, or_false] at he
    rcases he with ((h | h) | h) | (h | h | h | h)
    · subst h; simp [wellFormed, Event.isAdd, Event.isObserve, Event.isExecute, Event.isErrorLog]
    · subst h; simp [wellFormed, Event.isAdd, Event.isObserve, Event.isExecute, Event.isErrorLog]
    · exact wellFormed_iterations bg rs e h
    · subst h; simp [wellFormed, Event.isAdd, Event.isObserve, Event.isExecute, Event.isErrorLog]
    · subst h; simp [wellFormed, Event.isAdd, Event.isObserve, Event.isExecute, Event.isErrorLog]
    · subst h; simp [wellFormed, Event.isAdd, Event.isObserve, Event.isExecute, Event.isErrorLog]
    · subst h; simp [wellFormed, Event.isAdd, Event.isObserve, Event.isExecute, Event.isErrorLog]

theorem Run_wellFormed (bg : BackgroundCommand) (schedule : List Input) (e : Event)
    (he : e ∈ (bg.Run schedule).trace) : wellFormed bg e := by
  obtain ⟨rs, hs⟩ := Run_shape bg schedule
  rw [hs.trace_eq] at he
  exact wellFormed_expectedTrace bg rs _ e he

/-! ### The control part of a step does not depend on the trace -/

theorem loopCheck_append (bg : BackgroundCommand) (tr tr2 : List Event) :
    loopCheck bg (tr ++ tr2) =
      { bg := (loopCheck bg tr2).bg, pc := (loopCheck bg tr2).pc,
        trace := tr ++ (loopCheck bg tr2).trace } := by
  unfold loopCheck; split <;> simp

theorem step_append (bg : BackgroundCommand) (pc : PC) (tr : List Event) (i : Input) :
    step { bg := bg, pc := pc, trace := tr } i =
      { bg := (step { bg := bg, pc := pc, trace := [] } i).bg
        pc := (step { bg := bg, pc := pc, trace := [] } i).pc
        trace := tr ++ (step { bg := bg, pc := pc, trace := [] } i).trace } := by
  cases i with
  | stop => simp [step]
  | tick => cases pc <;> simp [step]
  | execReturns err =>
    cases pc with
    | executing t =>
      simp only [step, List.nil_append, List.append_assoc]
      rw [loopCheck_append]
    | awaitingTick => simp [step]
    | returned => simp [step]
    | panicked => simp [step]

theorem foldl_step_append (schedule : List Input) (bg : BackgroundCommand) (pc : PC)
    (tr : List Event) :
    schedule.foldl step { bg := bg, pc := pc, trace := tr } =
      { bg := (schedule.foldl step { bg := bg, pc := pc, trace := [] }).bg
        pc := (schedule.foldl step { bg := bg, pc := pc, trace := [] }).pc
        trace := tr ++ (schedule.foldl step { bg := bg, pc := pc, trace := [] }).trace } := by
  induction schedule generalizing bg pc tr with
  | nil => simp
  | cons i rest ih =>
    simp only [List.foldl_cons]
    rw [step_append bg pc tr i, ih,
      ih (step { bg := bg, pc := pc, trace := [] } i).bg
        (step { bg := bg, pc := pc, trace := [] } i).pc
        (step { bg := bg, pc := pc, trace := [] } i).trace]
    simp

theorem Run_append (bg : BackgroundCommand) (pre post : List Input) :
    bg.Run (pre ++ post) = post.foldl step (bg.Run pre) := by
  simp [BackgroundCommand.Run, List.foldl_append]

/-! ### After the return, and the flag along a run -/

theorem step_isStopped (s : RunState) (i : Input) (h : s.bg.isStopped = true) :
    (step s i).bg.isStopped = true := by
  cases i with
  | stop => exact isStopped_Stop _
  | tick => cases hpc : s.pc <;> simpa [step, hpc] using h
  | execReturns err =>
    cases hpc : s.pc with
    | executing t => simp only [step, hpc]; rw [loopCheck_bg]; exact h
    | awaitingTick => simpa [step, hpc] using h
    | returned => simpa [step, hpc] using h
    | panicked => simpa [step, hpc] using h

theorem foldl_isStopped (schedule : List Input) (s : RunState)
    (h : s.bg.isStopped = true) : (schedule.foldl step s).bg.isStopped = true := by
  induction schedule generalizing s with
  | nil => exact h
  | cons i rest ih => exact ih (step s i) (step_isStopped s i h)

theorem start_bg (bg : BackgroundCommand) : bg.start.bg = bg := by
  unfold BackgroundCommand.start
  split
  · rfl
  · exact loopCheck_bg _ _

theorem step_returned (s : RunState) (i : Input) (h : s.pc = PC.returned) :
    (step s i).pc = PC.returned ∧ (step s i).trace = s.trace := by
  cases i <;> simp [step, h]

theorem foldl_returned (schedule : List Input) (s : RunState) (h : s.pc = PC.returned) :
    (schedule.foldl step s).pc = PC.returned ∧ (schedule.foldl step s).trace = s.trace := by
  induction schedule generalizing s with
  | nil => exact ⟨h, rfl⟩
  | cons i rest ih =>
    obtain ⟨h1, h2⟩ := step_returned s i h
    obtain ⟨h3, h4⟩ := ih (step s i) h1
    exact ⟨h3, h4.trans h2⟩

theorem step_panicked (s : RunState) (i : Input) (h : s.pc = PC.panicked) :
    (step s i).pc = PC.panicked ∧ (step s i).trace = s.trace := by
  cases i <;> simp [step, h]

theorem foldl_panicked (schedule : List Input) (s : RunState) (h : s.pc = PC.panicked) :
    (schedule.foldl step s).pc = PC.panicked ∧ (schedule.foldl step s).trace = s.trace := by
  induction schedule generalizing s with
  | nil => exact ⟨h, rfl⟩
  | cons i rest ih =>
    obtain ⟨h1, h2⟩ := step_panicked s i h
    obtain ⟨h3, h4⟩ := ih (step s i) h1
    exact ⟨h3, h4.trans h2⟩

theorem start_of_stopped (bg : BackgroundCommand) (hi : 0 < bg.interval)
    (hs : bg.isStopped = true) :
    bg.start = { bg := bg, pc := PC.returned, trace := expectedTrace bg [] PC.returned } := by
  have hd : ¬ bg.interval ≤ 0 := not_le.mpr hi
  simp [BackgroundCommand.start, NewTicker, hd, loopCheck, hs, expectedTrace, header,
    iterations, pending]

theorem start_of_running (bg : BackgroundCommand) (hi : 0 < bg.interval)
    (hs : bg.isStopped = false) :
    bg.start =
      { bg := bg, pc := PC.awaitingTick, trace := expectedTrace bg [] PC.awaitingTick } := by
  have hd : ¬ bg.interval ≤ 0 := not_le.mpr hi
  simp [BackgroundCommand.start, NewTicker, hd, loopCheck, hs, expectedTrace, header,
    iterations, pending]

theorem start_of_nonpositive (bg : BackgroundCommand) (hi : bg.interval ≤ 0) :
    bg.start = { bg := bg, pc := PC.panicked, trace := expectedTrace bg [] PC.panicked } := by
  simp [BackgroundCommand.start, NewTicker, hi, expectedTrace]

/-! ### Schedules without `Stop()` -/

theorem round_step (bg : BackgroundCommand) (done : List (Option Error)) (r : Option Error)
    (hs : bg.isStopped = false) :
    step (step { bg := bg, pc := PC.awaitingTick,
                 trace := expectedTrace bg done PC.awaitingTick } Input.tick)
      (Input.execReturns r) =
      { bg := bg, pc := PC.awaitingTick,
        trace := expectedTrace bg (done ++ [r]) PC.awaitingTick } := by
  simp [step, loopCheck, hs, expectedTrace, pending, iterations_snoc, iteration, NewTimer,
    Timer.Unit, Timer.ObserveDuration]

theorem foldl_rounds (bg : BackgroundCommand) (rs done : List (Option Error))
    (hs : bg.isStopped = false) :
    (rounds rs).foldl step
        { bg := bg, pc := PC.awaitingTick, trace := expectedTrace bg done PC.awaitingTick } =
      { bg := bg, pc := PC.awaitingTick,
        trace := expectedTrace bg (done ++ rs) PC.awaitingTick } := by
  induction rs generalizing done with
  | nil => simp [rounds]
  | cons r rs ih =>
    simp only [rounds, List.foldl_cons]
    rw [round_step bg done r hs, ih (done ++ [r])]
    simp

theorem Run_rounds (bg : BackgroundCommand) (rs : List (Option Error))
    (hi : 0 < bg.interval) (hs : bg.isStopped = false) :
    bg.Run (rounds rs) =
      { bg := bg, pc := PC.awaitingTick, trace := expectedTrace bg rs PC.awaitingTick } := by
  unfold BackgroundCommand.Run
  rw [start_of_running bg hi hs, foldl_rounds bg rs [] hs]
  simp

/-! ### The return of `Execute` -/

theorem Run_execReturns (bg : BackgroundCommand) (schedule : List Input) (t : Timer)
    (r : Option Error) (h : (bg.Run schedule).pc = PC.executing t) :
    bg.Run (schedule ++ [Input.execReturns r]) =
      { bg := (bg.Run schedule).bg
        pc := if (bg.Run schedule).bg.isStopped then PC.returned else PC.awaitingTick
        trace := (bg.Run schedule).trace ++ errorEntries bg.log r ++
          [Event.observe bg.executionDurationHistogram Millisecond] ++
          pending bg (if (bg.Run schedule).bg.isStopped then PC.returned
            else PC.awaitingTick) } := by
  obtain ⟨rs, hs⟩ := Run_shape bg schedule
  obtain ⟨_, _, c3, _, _⟩ := hs.config
  have ht := hs.timer_eq t h
  rw [Run_append]
  simp only [List.foldl_cons, List.foldl_nil, step, h]
  rw [c3, ht]
  unfold loopCheck
  split <;> simp [Timer.ObserveDuration, pending, c3]

theorem errorLogEntries_append (a b : List Event) :
    errorLogEntries (a ++ b) = errorLogEntries a ++ errorLogEntries b := by
  simp [errorLogEntries]

theorem errorLogEntries_errorEntries (l : Logger) (r : Option Error) :
    errorLogEntries (errorEntries l r) = errorEntries l r := by
  cases r <;> simp [errorLogEntries, errorEntries, Event.isErrorLog]

theorem errorLogEntries_pending (bg : BackgroundCommand) (pc : PC) :
    errorLogEntries (pending bg pc) = [] := by
  cases pc <;> simp [errorLogEntries, pending, Event.isErrorLog]

theorem errorLogEntries_header (bg : BackgroundCommand) :
    errorLogEntries (header bg) = [] := by
  simp [errorLogEntries, header, Event.isErrorLog]

theorem errorLogEntries_iteration (bg : BackgroundCommand) (r : Option Error) :
    errorLogEntries (iteration bg r) = errorEntries bg.log r := by
  unfold iteration
  rw [errorLogEntries_append, errorLogEntries_append, errorLogEntries_errorEntries]
  simp [errorLogEntries, Event.isErrorLog]

theorem errorLogEntries_iterations_replicate_some (bg : BackgroundCommand) (n : Nat)
    (e : Error) :
    errorLogEntries (iterations bg (List.replicate n (some e))) =
      List.replicate n
        (Event.log bg.log Level.error [("msg", "command error"), ("err", e)]) := by
  induction n with
  | zero => simp [iterations, errorLogEntries]
  | succ n ih =>
    rw [List.replicate_succ, iterations, errorLogEntries_append, errorLogEntries_iteration, ih,
      List.replicate_succ]
    rfl

theorem errorLogEntries_iterations_replicate_none (bg : BackgroundCommand) (n : Nat) :
    errorLogEntries (iterations bg (List.replicate n none)) = [] := by
  induction n with
  | zero => simp [iterations, errorLogEntries]
  | succ n ih =>
    rw [List.replicate_succ, iterations, errorLogEntries_append, errorLogEntries_iteration, ih]
    rfl

theorem Run_execReturns_then (bg : BackgroundCommand) (schedule post : List Input)
    (t : Timer) (r : Option Error) (h : (bg.Run schedule).pc = PC.executing t) :
    bg.Run (schedule ++ Input.execReturns r :: post) =
      { bg := (post.foldl step
            { bg := (bg.Run schedule).bg
              pc := if (bg.Run schedule).bg.isStopped then PC.returned else PC.awaitingTick
              trace := [] }).bg
        pc := (post.foldl step
            { bg := (bg.Run schedule).bg
              pc := if (bg.Run schedule).bg.isStopped then PC.returned else PC.awaitingTick
              trace := [] }).pc
        trace := (bg.Run (schedule ++ [Input.execReturns r])).trace ++
          (post.foldl step
            { bg := (bg.Run schedule).bg
              pc := if (bg.Run schedule).bg.isStopped then PC.returned else PC.awaitingTick
              trace := [] }).trace } := by
  have hsplit : schedule ++ Input.execReturns r :: post =
      (schedule ++ [Input.execReturns r]) ++ post := by simp
  rw [hsplit, Run_append, Run_execReturns bg schedule t r h, foldl_step_append]

theorem Run_stop_execReturns (bg : BackgroundCommand) (pre post : List Input) (t : Timer)
    (r : Option Error) (h : (bg.Run pre).pc = PC.executing t) :
    (bg.Run (pre ++ Input.stop :: Input.execReturns r :: post)).pc = PC.returned ∧
    (bg.Run (pre ++ Input.stop :: Input.execReturns r :: post)).trace =
      (bg.Run pre).trace ++ errorEntries bg.log r ++
        [Event.observe bg.executionDurationHistogram Millisecond,
         Event.isStoppedRead true,
         Event.log bg.log Level.info [("msg", "stopping background process")],
         Event.tickerStop] := by
  have h1 : bg.Run (pre ++ [Input.stop]) =
      { bg := (bg.Run pre).bg.Stop, pc := (bg.Run pre).pc, trace := (bg.Run pre).trace } := by
    rw [Run_append]; simp [step]
  have h2 : (bg.Run (pre ++ [Input.stop])).pc = PC.executing t := by rw [h1]; exact h
  have h3 := Run_execReturns bg (pre ++ [Input.stop]) t r h2
  have h4 : (bg.Run (pre ++ [Input.stop])).bg.isStopped = true := by
    rw [h1]; exact isStopped_Stop _
  have hsplit : pre ++ Input.stop :: Input.execReturns r :: post =
      (pre ++ [Input.stop] ++ [Input.execReturns r]) ++ post := by simp
  have h5 : (bg.Run (pre ++ [Input.stop] ++ [Input.execReturns r])).pc = PC.returned := by
    rw [h3]; simp [h4]
  obtain ⟨h6, h7⟩ := foldl_returned post _ h5
  rw [hsplit, Run_append]
  refine ⟨h6, h7.trans ?_⟩
  rw [h3]
  simp only [h4, if_true]
  simp [h1, pending]

theorem step_stopped_mayBegin (s : RunState) (i : Input) (h : s.bg.isStopped = true) :
    executeCount (step s i).trace + mayBegin (step s i).pc ≤
      executeCount s.trace + mayBegin s.pc := by
  cases i with
  | stop => simp [step]
  | tick =>
    cases hpc : s.pc <;>
      simp [step, hpc, mayBegin, executeCount, Event.isExecute]
  | execReturns err =>
    cases hpc : s.pc with
    | executing t =>
      obtain ⟨_, _, e3, _, _, _⟩ := errorEntries_counts s.bg.log err
      simp only [step, hpc, loopCheck, h, if_true, mayBegin, executeCount_append, e3]
      simp [executeCount, Event.isExecute, Timer.ObserveDuration]
    | awaitingTick => simp [step, hpc]
    | returned => simp [step, hpc]
    | panicked => simp [step, hpc]

theorem foldl_stopped_mayBegin (schedule : List Input) (s : RunState)
    (h : s.bg.isStopped = true) :
    executeCount (schedule.foldl step s).trace + mayBegin (schedule.foldl step s).pc ≤
      executeCount s.trace + mayBegin s.pc := by
  induction schedule generalizing s with
  | nil => exact le_refl _
  | cons i rest ih =>
    exact le_trans (ih (step s i) (step_isStopped s i h)) (step_stopped_mayBegin s i h)

theorem Stop_Stop (bg : BackgroundCommand) : bg.Stop.Stop = bg.Stop := rfl

/-! ## Claims on the run loop -/

/-- C1, as stated, fails: a runner built with `BackgroundCommandWithInterval 0` and stopped
before `Run()` does not return from `Run()`; `time.NewTicker` panics after the start entry,
and the termination entry is never logged. -/
theorem Stop_before_Run_zero_interval :
    ((NewBackgroundCommand { id := 0 } [BackgroundCommandWithInterval 0]).Stop.Run []).pc =
      PC.panicked ∧
    ((NewBackgroundCommand { id := 0 } [BackgroundCommandWithInterval 0]).Stop.Run []).pc ≠
      PC.returned ∧
    logEntries
      ((NewBackgroundCommand { id := 0 } [BackgroundCommandWithInterval 0]).Stop.Run []).trace =
      [Event.log Logger.nop Level.info [("msg", "running background process")]] := by
  refine ⟨by rfl, by decide, by rfl⟩

/-- C1, amended: for every runner (any command, any options), if `Stop()` is called before
`Run()`, then under every schedule `Run()` receives no tick and never calls `Execute`: no
`Add`, no observation, and the loop is never waiting for a tick. When the interval is
positive `Run()` returns at once, and its calls are exactly the start entry, the creation of
the ticker, one read of the flag, the termination entry and the release of the ticker, so
the only log entries are the start and termination info entries. When the interval is not
positive, `Run()` is left by the panic of `time.NewTicker` right after the start entry. -/
theorem Stop_before_Run (bg : BackgroundCommand) (schedule : List Input) :
    tickCount (bg.Stop.Run schedule).trace = 0 ∧
    executeCount (bg.Stop.Run schedule).trace = 0 ∧
    addCount (bg.Stop.Run schedule).trace = 0 ∧
    counterTotal (bg.Stop.Run schedule).trace = 0 ∧
    observeCount (bg.Stop.Run schedule).trace = 0 ∧
    (bg.Stop.Run schedule).pc ≠ PC.awaitingTick ∧
    (0 < bg.interval →
      (bg.Stop.Run schedule).pc = PC.returned ∧
      (bg.Stop.Run schedule).trace =
        [Event.log bg.log Level.info [("msg", "running background process")],
         Event.newTicker bg.interval,
         Event.isStoppedRead true,
         Event.log bg.log Level.info [("msg", "stopping background process")],
         Event.tickerStop] ∧
      logEntries (bg.Stop.Run schedule).trace =
        [Event.log bg.log Level.info [("msg", "running background process")],
         Event.log bg.log Level.info [("msg", "stopping background process")]]) ∧
    (bg.interval ≤ 0 →
      (bg.Stop.Run schedule).pc = PC.panicked ∧
      (bg.Stop.Run schedule).trace =
        [Event.log bg.log Level.info [("msg", "running background process")]]) := by
  have hpos : 0 < bg.interval →
      (bg.Stop.Run schedule).pc = PC.returned ∧
      (bg.Stop.Run schedule).trace =
        [Event.log bg.log Level.info [("msg", "running background process")],
         Event.newTicker bg.interval,
         Event.isStoppedRead true,
         Event.log bg.log Level.info [("msg", "stopping background process")],
         Event.tickerStop] := by
    intro hi
    have h := foldl_returned schedule bg.Stop.start
      (by rw [start_of_stopped bg.Stop hi (isStopped_Stop bg)])
    refine ⟨h.1, h.2.trans ?_⟩
    rw [start_of_stopped bg.Stop hi (isStopped_Stop bg)]
    simp [expectedTrace, header, iterations, pending, BackgroundCommand.Stop]
  have hneg : bg.interval ≤ 0 →
      (bg.Stop.Run schedule).pc = PC.panicked ∧
      (bg.Stop.Run schedule).trace =
        [Event.log bg.log Level.info [("msg", "running background process")]] := by
    intro hi
    have h := foldl_panicked schedule bg.Stop.start
      (by rw [start_of_nonpositive bg.Stop hi])
    refine ⟨h.1, h.2.trans ?_⟩
    rw [start_of_nonpositive bg.Stop hi]
    simp [expectedTrace, BackgroundCommand.Stop]
  rcases lt_or_le 0 bg.interval with hi | hi
  · obtain ⟨h1, h2⟩ := hpos hi
    refine ⟨?_, ?_, ?_, ?_, ?_, ?_, fun _ => ⟨h1, h2, ?_⟩, fun h => absurd hi (not_lt.mpr h)⟩ <;>
      simp [h1, h2, tickCount, executeCount, addCount, counterTotal, observeCount, logEntries,
        Event.isTick, Event.isExecute, Event.isAdd, Event.addDelta, Event.isObserve,
        Event.isLog]
  · obtain ⟨h1, h2⟩ := hneg hi
    refine ⟨?_, ?_, ?_, ?_, ?_, ?_, fun h => absurd h (not_lt.mpr hi), fun _ => ⟨h1, h2⟩⟩ <;>
      simp [h1, h2, tickCount, executeCount, addCount, counterTotal, observeCount,
        Event.isTick, Event.isExecute, Event.isAdd, Event.addDelta, Event.isObserve]

/-- C1, amended, at a runner built with a logger option and the default interval, under a
schedule that offers a tick, and at a runner built with a negative interval. -/
theorem Stop_before_Run_witness :
    (0 : Int) < (NewBackgroundCommand { id := 7 }
        [BackgroundCommandWithLogger (Logger.sink 1)]).interval ∧
    ((NewBackgroundCommand { id := 7 }
        [BackgroundCommandWithLogger (Logger.sink 1)]).Stop.Run
          [Input.tick, Input.execReturns none]).pc = PC.returned ∧
    (NewBackgroundCommand { id := 7 } [BackgroundCommandWithInterval (-5)]).interval ≤ 0 ∧
    ((NewBackgroundCommand { id := 7 } [BackgroundCommandWithInterval (-5)]).Stop.Run
          [Input.tick]).pc = PC.panicked :=
  ⟨by decide,
   ((Stop_before_Run (NewBackgroundCommand { id := 7 }
        [BackgroundCommandWithLogger (Logger.sink 1)])
      [Input.tick, Input.execReturns none]).2.2.2.2.2.2.1 (by decide)).1,
   by decide,
   ((Stop_before_Run (NewBackgroundCommand { id := 7 } [BackgroundCommandWithInterval (-5)])
      [Input.tick]).2.2.2.2.2.2.2 (by decide)).1⟩

/-- C2: under every schedule the total passed to `Add` equals the number of ticks received,
there is one `Add` call per tick received and each is `Add(1)` on the runner's counter, and
`Execute` has been called once per tick received; a tick delivered to the waiting loop is
followed by exactly `Add(1)` and the call of `Execute`. For a positive interval and an unset
flag, the schedule that delivers N ticks with nobody calling `Stop()` gives N ticks received,
counter total N and N calls of `Execute`. -/
theorem Run_counter_per_tick (bg : BackgroundCommand) (schedule : List Input) :
    counterTotal (bg.Run schedule).trace = (tickCount (bg.Run schedule).trace : Int) ∧
    addCount (bg.Run schedule).trace = tickCount (bg.Run schedule).trace ∧
    executeCount (bg.Run schedule).trace = tickCount (bg.Run schedule).trace ∧
    (∀ e ∈ (bg.Run schedule).trace,
      e.isAdd = true → e = Event.counterAdd bg.executionsCounter 1) ∧
    ((bg.Run schedule).pc = PC.awaitingTick →
      (bg.Run (schedule ++ [Input.tick])).trace =
        (bg.Run schedule).trace ++
          [Event.tickReceived, Event.counterAdd bg.executionsCounter 1,
           Event.execute bg.command]) ∧
    (∀ rs : List (Option Error), 0 < bg.interval → bg.isStopped = false →
      tickCount (bg.Run (rounds rs)).trace = rs.length ∧
      counterTotal (bg.Run (rounds rs)).trace = (rs.length : Int) ∧
      executeCount (bg.Run (rounds rs)).trace = rs.length) := by
  obtain ⟨rs0, hs⟩ := Run_shape bg schedule
  obtain ⟨c1, c2, c3, c4, c5, c6⟩ :=
    expectedTrace_counts bg rs0 (bg.Run schedule).pc hs.panicked_nil
  refine ⟨?_, ?_, ?_, ?_, ?_, ?_⟩
  · rw [hs.trace_eq, c3, c1]
  · rw [hs.trace_eq, c2, c1]
  · rw [hs.trace_eq, c1]
  · intro e he; exact (Run_wellFormed bg schedule e he).1
  · intro hpc
    obtain ⟨k1, _, _, k4, _⟩ := hs.config
    rw [Run_append]
    simp [step, hpc, k1, k4]
  · intro rs hi hstop
    obtain ⟨d1, d2, d3, d4, d5, d6⟩ :=
      expectedTrace_counts bg rs PC.awaitingTick (fun h => by cases h)
    rw [Run_rounds bg rs hi hstop]
    simp only [inFlight, openChecks] at d1 d2 d3 d4 d5 d6 ⊢
    refine ⟨by omega, ?_, by omega⟩
    rw [d3]; simp; omega

/-- C2 at the default runner with three ticks, the second `Execute` failing, and at the
delivery of its second tick. -/
theorem Run_counter_per_tick_witness :
    (0 : Int) < (NewBackgroundCommand { id := 1 } []).interval ∧
    (NewBackgroundCommand { id := 1 } []).isStopped = false ∧
    counterTotal ((NewBackgroundCommand { id := 1 } []).Run
      (rounds [none, some "e", none])).trace = 3 ∧
    ((NewBackgroundCommand { id := 1 } []).Run [Input.tick, Input.execReturns none]).pc =
      PC.awaitingTick ∧
    ((NewBackgroundCommand { id := 1 } []).Run
        ([Input.tick, Input.execReturns none] ++ [Input.tick])).trace =
      ((NewBackgroundCommand { id := 1 } []).Run [Input.tick, Input.execReturns none]).trace ++
        [Event.tickReceived,
         Event.counterAdd (NewBackgroundCommand { id := 1 } []).executionsCounter 1,
         Event.execute (NewBackgroundCommand { id := 1 } []).command] :=
  ⟨by decide, by decide,
   ((Run_counter_per_tick (NewBackgroundCommand { id := 1 } []) []).2.2.2.2.2
      [none, some "e", none] (by decide) (by decide)).2.1,
   by decide,
   (Run_counter_per_tick (NewBackgroundCommand { id := 1 } [])
      [Input.tick, Input.execReturns none]).2.2.2.2.1 (by decide)⟩

/-- C3: under every schedule each observation in the trace is made on the runner's
histogram with the unit one millisecond (1000000 ns), and the number of observations is
the number of calls of `Execute` that have returned: equal to the number of calls when none
is in flight (in particular once `Run` has returned), one less while one is in flight. When
the pending `Execute` returns, with nil or with an error, the timer it holds has unit
millisecond and exactly one observation is recorded, after the error entry if there is one
and before the next read of the flag. -/
theorem Run_histogram_per_execute (bg : BackgroundCommand) (schedule : List Input) :
    (∀ e ∈ (bg.Run schedule).trace,
      e.isObserve = true → e = Event.observe bg.executionDurationHistogram Millisecond) ∧
    Millisecond = 1000000 ∧
    observeCount (bg.Run schedule).trace + inFlight (bg.Run schedule).pc =
      executeCount (bg.Run schedule).trace ∧
    ((bg.Run schedule).pc = PC.returned →
      observeCount (bg.Run schedule).trace = executeCount (bg.Run schedule).trace) ∧
    (∀ (t : Timer) (r : Option Error), (bg.Run schedule).pc = PC.executing t →
      t.u = Millisecond ∧ t.h = bg.executionDurationHistogram ∧
      (bg.Run (schedule ++ [Input.execReturns r])).trace =
        (bg.Run schedule).trace ++ errorEntries bg.log r ++
          [Event.observe bg.executionDurationHistogram Millisecond] ++
          pending bg (bg.Run (schedule ++ [Input.execReturns r])).pc ∧
      observeCount (bg.Run (schedule ++ [Input.execReturns r])).trace =
        observeCount (bg.Run schedule).trace + 1 ∧
      executeCount (bg.Run (schedule ++ [Input.execReturns r])).trace =
        executeCount (bg.Run schedule).trace ∧
      observeCount (bg.Run (schedule ++ [Input.execReturns r])).trace =
        executeCount (bg.Run (schedule ++ [Input.execReturns r])).trace) := by
  obtain ⟨rs0, hs⟩ := Run_shape bg schedule
  obtain ⟨c1, c2, c3, c4, c5, c6⟩ :=
    expectedTrace_counts bg rs0 (bg.Run schedule).pc hs.panicked_nil
  have hcount : observeCount (bg.Run schedule).trace + inFlight (bg.Run schedule).pc =
      executeCount (bg.Run schedule).trace := by
    rw [hs.trace_eq, c4, c5]
  refine ⟨?_, by decide, hcount, ?_, ?_⟩
  · intro e he; exact (Run_wellFormed bg schedule e he).2.1
  · intro hpc
    rw [hpc] at hcount
    simpa [inFlight] using hcount
  · intro t r hpc
    have ht := hs.timer_eq t hpc
    rw [hpc] at hcount
    have hrun := Run_execReturns bg schedule t r hpc
    obtain ⟨e1, e2, e3, e4, e5, e6⟩ := errorEntries_counts bg.log r
    have hp : ∀ pc, pc = PC.returned ∨ pc = PC.awaitingTick →
        observeCount (pending bg pc) = 0 ∧ executeCount (pending bg pc) = 0 := by
      intro pc h
      rcases h with h | h <;> subst h <;>
        simp [pending, observeCount, executeCount, Event.isObserve, Event.isExecute]
    have hpc1 : (bg.Run (schedule ++ [Input.execReturns r])).pc = PC.returned ∨
        (bg.Run (schedule ++ [Input.execReturns r])).pc = PC.awaitingTick := by
      rw [hrun]; simp only
      split
      · exact Or.inl rfl
      · exact Or.inr rfl
    obtain ⟨p1, p2⟩ := hp _ hpc1
    have htr : (bg.Run (schedule ++ [Input.execReturns r])).trace =
        (bg.Run schedule).trace ++ errorEntries bg.log r ++
          [Event.observe bg.executionDurationHistogram Millisecond] ++
          pending bg (bg.Run (schedule ++ [Input.execReturns r])).pc := by
      rw [hrun]
    have ho : observeCount (bg.Run (schedule ++ [Input.execReturns r])).trace =
        observeCount (bg.Run schedule).trace + 1 := by
      rw [htr, observeCount_append, observeCount_append, observeCount_append, e4, p1]
      simp [observeCount, Event.isObserve]
    have hx : executeCount (bg.Run (schedule ++ [Input.execReturns r])).trace =
        executeCount (bg.Run schedule).trace := by
      rw [htr, executeCount_append, executeCount_append, executeCount_append, e3, p2]
      simp [executeCount, Event.isExecute]
    refine ⟨by rw [ht], by rw [ht], htr, ho, hx, ?_⟩
    rw [ho, hx]
    simpa [inFlight] using hcount

/-- C3 at the default runner, for the return of a failing first `Execute`, and for a run
that has returned after two executions. -/
theorem Run_histogram_per_execute_witness :
    ((NewBackgroundCommand { id := 1 } []).Run [Input.tick]).pc =
      PC.executing { h := Histogram.discard, u := Millisecond } ∧
    observeCount ((NewBackgroundCommand { id := 1 } []).Run
      ([Input.tick] ++ [Input.execReturns (some "boom")])).trace =
      observeCount ((NewBackgroundCommand { id := 1 } []).Run [Input.tick]).trace + 1 ∧
    ((NewBackgroundCommand { id := 1 } []).Run
      [Input.tick, Input.execReturns (some "boom"), Input.tick, Input.stop,
       Input.execReturns none]).pc = PC.returned ∧
    observeCount ((NewBackgroundCommand { id := 1 } []).Run
      [Input.tick, Input.execReturns (some "boom"), Input.tick, Input.stop,
       Input.execReturns none]).trace =
    executeCount ((NewBackgroundCommand { id := 1 } []).Run
      [Input.tick, Input.execReturns (some "boom"), Input.tick, Input.stop,
       Input.execReturns none]).trace :=
  ⟨by decide,
   ((Run_histogram_per_execute (NewBackgroundCommand { id := 1 } []) [Input.tick]).2.2.2.2
      { h := Histogram.discard, u := Millisecond } (some "boom") (by decide)).2.2.2.1,
   by decide,
   (Run_histogram_per_execute (NewBackgroundCommand { id := 1 } [])
      [Input.tick, Input.execReturns (some "boom"), Input.tick, Input.stop,
       Input.execReturns none]).2.2.2.1 (by decide)⟩

/-- C4: an error returned by `Execute` neither ends nor alters the loop. When the pending
`Execute` returns the error `e`, `Run` logs exactly one error-level entry carrying `e` under
the key "err", records the observation and goes to the same flag check as after nil: the
control point and the record are those reached after nil, the calls differ from those after
nil by that one entry only, and this stays so under every continuation of the schedule; a
return of nil logs no error-level entry. With a positive interval, the flag unset, nobody
calling `Stop()` and an `Execute` that always fails with "boom", after n ticks exactly n
error entries carrying "boom" have been logged and `Run` is waiting for the next tick, not
returned; in particular for n = 2. -/
theorem Run_execute_error_logged (bg : BackgroundCommand) :
    (∀ (schedule : List Input) (t : Timer) (e : Error),
      (bg.Run schedule).pc = PC.executing t →
      (bg.Run (schedule ++ [Input.execReturns (some e)])).trace =
        (bg.Run schedule).trace ++
          [Event.log bg.log Level.error [("msg", "command error"), ("err", e)],
           Event.observe bg.executionDurationHistogram Millisecond] ++
          pending bg (bg.Run (schedule ++ [Input.execReturns none])).pc ∧
      (bg.Run (schedule ++ [Input.execReturns none])).trace =
        (bg.Run schedule).trace ++
          [Event.observe bg.executionDurationHistogram Millisecond] ++
          pending bg (bg.Run (schedule ++ [Input.execReturns none])).pc ∧
      errorLogEntries (bg.Run (schedule ++ [Input.execReturns (some e)])).trace =
        errorLogEntries (bg.Run schedule).trace ++
          [Event.log bg.log Level.error [("msg", "command error"), ("err", e)]] ∧
      errorLogEntries (bg.Run (schedule ++ [Input.execReturns none])).trace =
        errorLogEntries (bg.Run schedule).trace ∧
      (bg.Run (schedule ++ [Input.execReturns (some e)])).pc =
        (if (bg.Run schedule).bg.isStopped then PC.returned else PC.awaitingTick) ∧
      (∀ post : List Input,
        (bg.Run (schedule ++ Input.execReturns (some e) :: post)).pc =
          (bg.Run (schedule ++ Input.execReturns none :: post)).pc ∧
        (bg.Run (schedule ++ Input.execReturns (some e) :: post)).bg =
          (bg.Run (schedule ++ Input.execReturns none :: post)).bg ∧
        ∃ rest : List Event,
          (bg.Run (schedule ++ Input.execReturns (some e) :: post)).trace =
            (bg.Run (schedule ++ [Input.execReturns (some e)])).trace ++ rest ∧
          (bg.Run (schedule ++ Input.execReturns none :: post)).trace =
            (bg.Run (schedule ++ [Input.execReturns none])).trace ++ rest)) ∧
    (∀ n : Nat, 0 < bg.interval → bg.isStopped = false →
      errorLogEntries (bg.Run (rounds (List.replicate n (some "boom")))).trace =
        List.replicate n
          (Event.log bg.log Level.error [("msg", "command error"), ("err", "boom")]) ∧
      (bg.Run (rounds (List.replicate n (some "boom")))).pc = PC.awaitingTick) ∧
    (0 < bg.interval → bg.isStopped = false →
      errorLogEntries (bg.Run [Input.tick, Input.execReturns (some "boom"),
          Input.tick, Input.execReturns (some "boom")]).trace =
        [Event.log bg.log Level.error [("msg", "command error"), ("err", "boom")],
         Event.log bg.log Level.error [("msg", "command error"), ("err", "boom")]] ∧
      (bg.Run [Input.tick, Input.execReturns (some "boom"),
          Input.tick, Input.execReturns (some "boom")]).pc ≠ PC.returned) := by
  have hboom : ∀ n : Nat, 0 < bg.interval → bg.isStopped = false →
      errorLogEntries (bg.Run (rounds (List.replicate n (some "boom")))).trace =
        List.replicate n
          (Event.log bg.log Level.error [("msg", "command error"), ("err", "boom")]) ∧
      (bg.Run (rounds (List.replicate n (some "boom")))).pc = PC.awaitingTick := by
    intro n hi hstop
    rw [Run_rounds bg _ hi hstop]
    refine ⟨?_, rfl⟩
    simp only [expectedTrace, errorLogEntries_append, errorLogEntries_header,
      errorLogEntries_pending, errorLogEntries_iterations_replicate_some]
    simp
  refine ⟨?_, hboom, ?_⟩
  · intro schedule t e hpc
    have hE := Run_execReturns bg schedule t (some e) hpc
    have hN := Run_execReturns bg schedule t none hpc
    have hEt := Run_execReturns_then bg schedule
    refine ⟨?_, ?_, ?_, ?_, ?_, ?_⟩
    · rw [hE, hN]; simp [errorEntries]
    · rw [hN]; simp [errorEntries]
    · rw [hE]
      simp only [errorLogEntries_append, errorLogEntries_pending,
        errorLogEntries_errorEntries]
      simp [errorLogEntries, errorEntries, Event.isErrorLog]
    · rw [hN]
      simp only [errorLogEntries_append, errorLogEntries_pending,
        errorLogEntries_errorEntries]
      simp [errorLogEntries, errorEntries, Event.isErrorLog]
    · rw [hE]
    · intro post
      rw [hEt post t (some e) hpc, hEt post t none hpc]
      exact ⟨rfl, rfl, _, rfl, rfl⟩
  · intro hi hstop
    have h2 := hboom 2 hi hstop
    have hr : rounds (List.replicate 2 (some "boom")) =
        [Input.tick, Input.execReturns (some "boom"),
          Input.tick, Input.execReturns (some "boom")] := rfl
    rw [hr] at h2
    refine ⟨h2.1, ?_⟩
    rw [h2.2]
    decide

/-- C4 at the default runner: the second `Execute` fails with "boom". -/
theorem Run_execute_error_logged_witness :
    ((NewBackgroundCommand { id := 1 } []).Run
        [Input.tick, Input.execReturns none, Input.tick]).pc =
      PC.executing { h := Histogram.discard, u := Millisecond } ∧
    errorLogEntries ((NewBackgroundCommand { id := 1 } []).Run
        ([Input.tick, Input.execReturns none, Input.tick] ++
          [Input.execReturns (some "boom")])).trace =
      errorLogEntries ((NewBackgroundCommand { id := 1 } []).Run
        [Input.tick, Input.execReturns none, Input.tick]).trace ++
        [Event.log (NewBackgroundCommand { id := 1 } []).log Level.error
          [("msg", "command error"), ("err", "boom")]] ∧
    (0 : Int) < (NewBackgroundCommand { id := 1 } []).interval ∧
    (NewBackgroundCommand { id := 1 } []).isStopped = false ∧
    ((NewBackgroundCommand { id := 1 } []).Run
        [Input.tick, Input.execReturns (some "boom"),
          Input.tick, Input.execReturns (some "boom")]).pc ≠ PC.returned ∧
    ((NewBackgroundCommand { id := 1 } []).Run
        (rounds (List.replicate 3 (some "boom")))).pc = PC.awaitingTick :=
  ⟨by decide,
   ((Run_execute_error_logged (NewBackgroundCommand { id := 1 } [])).1
      [Input.tick, Input.execReturns none, Input.tick]
      { h := Histogram.discard, u := Millisecond } "boom" (by decide)).2.2.1,
   by decide, by decide,
   ((Run_execute_error_logged (NewBackgroundCommand { id := 1 } [])).2.2
      (by decide) (by decide)).2,
   ((Run_execute_error_logged (NewBackgroundCommand { id := 1 } [])).2.1 3
      (by decide) (by decide)).2⟩

/-- C5: if the flag is unset while the k-th `Execute` is in flight and `Stop()` is called
before that `Execute` returns, then k is at least 1, the call of `Stop()` leaves the
`Execute` in flight and adds no call, the `Execute` runs to its return and its observation
is recorded, the next flag check ends the loop, and `Run()` returns with
exactly k ticks received, k calls of `Execute`, k observations and the counter increased by
exactly k, whatever the schedule offers afterwards. With a positive interval, an `Execute`
that always returns nil and `Stop()` called during execution n+1, the counter total is n+1
and no error entry is logged; in particular the total is 3 for the third execution. -/
theorem Stop_during_Execute (bg : BackgroundCommand) :
    (∀ (pre post : List Input) (t : Timer) (r : Option Error) (k : Nat),
      (bg.Run pre).pc = PC.executing t → (bg.Run pre).bg.isStopped = false →
      executeCount (bg.Run pre).trace = k →
      1 ≤ k ∧
      (bg.Run (pre ++ [Input.stop])).pc = PC.executing t ∧
      (bg.Run (pre ++ [Input.stop])).trace = (bg.Run pre).trace ∧
      (bg.Run (pre ++ Input.stop :: Input.execReturns r :: post)).pc = PC.returned ∧
      (bg.Run (pre ++ Input.stop :: Input.execReturns r :: post)).trace =
        (bg.Run pre).trace ++ errorEntries bg.log r ++
          [Event.observe bg.executionDurationHistogram Millisecond,
           Event.isStoppedRead true,
           Event.log bg.log Level.info [("msg", "stopping background process")],
           Event.tickerStop] ∧
      tickCount (bg.Run (pre ++ Input.stop :: Input.execReturns r :: post)).trace = k ∧
      executeCount (bg.Run (pre ++ Input.stop :: Input.execReturns r :: post)).trace = k ∧
      observeCount (bg.Run (pre ++ Input.stop :: Input.execReturns r :: post)).trace = k ∧
      counterTotal (bg.Run (pre ++ Input.stop :: Input.execReturns r :: post)).trace =
        (k : Int)) ∧
    (∀ (n : Nat) (post : List Input), 0 < bg.interval → bg.isStopped = false →
      (bg.Run (rounds (List.replicate n none) ++
        Input.tick :: Input.stop :: Input.execReturns none :: post)).pc = PC.returned ∧
      counterTotal (bg.Run (rounds (List.replicate n none) ++
        Input.tick :: Input.stop :: Input.execReturns none :: post)).trace = (n : Int) + 1 ∧
      executeCount (bg.Run (rounds (List.replicate n none) ++
        Input.tick :: Input.stop :: Input.execReturns none :: post)).trace = n + 1 ∧
      errorLogEntries (bg.Run (rounds (List.replicate n none) ++
        Input.tick :: Input.stop :: Input.execReturns none :: post)).trace = []) ∧
    (∀ post : List Input, 0 < bg.interval → bg.isStopped = false →
      (bg.Run ([Input.tick, Input.execReturns none, Input.tick, Input.execReturns none,
        Input.tick, Input.stop, Input.execReturns none] ++ post)).pc = PC.returned ∧
      counterTotal (bg.Run ([Input.tick, Input.execReturns none, Input.tick,
        Input.execReturns none, Input.tick, Input.stop, Input.execReturns none] ++
          post)).trace = 3 ∧
      errorLogEntries (bg.Run ([Input.tick, Input.execReturns none, Input.tick,
        Input.execReturns none, Input.tick, Input.stop, Input.execReturns none] ++
          post)).trace = []) := by
  have part1 : ∀ (pre post : List Input) (t : Timer) (r : Option Error) (k : Nat),
      (bg.Run pre).pc = PC.executing t → (bg.Run pre).bg.isStopped = false →
      executeCount (bg.Run pre).trace = k →
      1 ≤ k ∧
      (bg.Run (pre ++ [Input.stop])).pc = PC.executing t ∧
      (bg.Run (pre ++ [Input.stop])).trace = (bg.Run pre).trace ∧
      (bg.Run (pre ++ Input.stop :: Input.execReturns r :: post)).pc = PC.returned ∧
      (bg.Run (pre ++ Input.stop :: Input.execReturns r :: post)).trace =
        (bg.Run pre).trace ++ errorEntries bg.log r ++
          [Event.observe bg.executionDurationHistogram Millisecond,
           Event.isStoppedRead true,
           Event.log bg.log Level.info [("msg", "stopping background process")],
           Event.tickerStop] ∧
      tickCount (bg.Run (pre ++ Input.stop :: Input.execReturns r :: post)).trace = k ∧
      executeCount (bg.Run (pre ++ Input.stop :: Input.execReturns r :: post)).trace = k ∧
      observeCount (bg.Run (pre ++ Input.stop :: Input.execReturns r :: post)).trace = k ∧
      counterTotal (bg.Run (pre ++ Input.stop :: Input.execReturns r :: post)).trace =
        (k : Int) := by
    intro pre post t r k hpc _ hk
    obtain ⟨rs, hs⟩ := Run_shape bg pre
    obtain ⟨c1, c2, c3, c4, c5, c6⟩ :=
      expectedTrace_counts bg rs (bg.Run pre).pc hs.panicked_nil
    rw [← hs.trace_eq] at c1 c2 c3 c4 c5 c6
    rw [hpc] at c5
    simp only [inFlight] at c5
    obtain ⟨e1, e2, e3, e4, e5, e6⟩ := errorEntries_counts bg.log r
    obtain ⟨h1, h2⟩ := Run_stop_execReturns bg pre post t r hpc
    refine ⟨by omega, by rw [Run_append]; simpa [step] using hpc,
      by rw [Run_append]; simp [step], h1, h2, ?_, ?_, ?_, ?_⟩
    · rw [h2, tickCount_append, tickCount_append, e1, c1]
      simp [tickCount, Event.isTick, hk]
    · rw [h2, executeCount_append, executeCount_append, e3]
      simp [executeCount, Event.isExecute]
      exact hk
    · rw [h2, observeCount_append, observeCount_append, e4, c4]
      simp [observeCount, Event.isObserve]
      omega
    · rw [h2, counterTotal_append, counterTotal_append, e6, c3]
      simp [counterTotal, Event.addDelta, hk]
  have part2 : ∀ (n : Nat) (post : List Input), 0 < bg.interval → bg.isStopped = false →
      (bg.Run (rounds (List.replicate n none) ++
        Input.tick :: Input.stop :: Input.execReturns none :: post)).pc = PC.returned ∧
      counterTotal (bg.Run (rounds (List.replicate n none) ++
        Input.tick :: Input.stop :: Input.execReturns none :: post)).trace = (n : Int) + 1 ∧
      executeCount (bg.Run (rounds (List.replicate n none) ++
        Input.tick :: Input.stop :: Input.execReturns none :: post)).trace = n + 1 ∧
      errorLogEntries (bg.Run (rounds (List.replicate n none) ++
        Input.tick :: Input.stop :: Input.execReturns none :: post)).trace = [] := by
    intro n post hi hstop
    have hsplit : rounds (List.replicate n none) ++
        Input.tick :: Input.stop :: Input.execReturns none :: post =
        (rounds (List.replicate n none) ++ [Input.tick]) ++
          Input.stop :: Input.execReturns none :: post := by simp
    have hpre : bg.Run (rounds (List.replicate n none) ++ [Input.tick]) =
        { bg := bg
          pc := PC.executing ((NewTimer bg.executionDurationHistogram).Unit Millisecond)
          trace := expectedTrace bg (List.replicate n none) PC.awaitingTick ++
            [Event.tickReceived, Event.counterAdd bg.executionsCounter 1,
             Event.execute bg.command] } := by
      rw [Run_append, Run_rounds bg _ hi hstop]
      simp [step]
    obtain ⟨d1, d2, d3, d4, d5, d6⟩ :=
      expectedTrace_counts bg (List.replicate n none) PC.awaitingTick (fun h => by cases h)
    have hk : executeCount (bg.Run (rounds (List.replicate n none) ++ [Input.tick])).trace =
        n + 1 := by
      rw [hpre]
      simp only [executeCount_append, d5, inFlight]
      simp [executeCount, Event.isExecute]
    have herr : errorLogEntries
        (bg.Run (rounds (List.replicate n none) ++ [Input.tick])).trace = [] := by
      rw [hpre]
      simp only [expectedTrace, errorLogEntries_append, errorLogEntries_header,
        errorLogEntries_pending, errorLogEntries_iterations_replicate_none]
      simp [errorLogEntries, Event.isErrorLog]
    obtain ⟨_, _, _, p2, p3, _, p5, _, p7⟩ := part1 (rounds (List.replicate n none) ++ [Input.tick])
      post ((NewTimer bg.executionDurationHistogram).Unit Millisecond) none (n + 1)
      (by rw [hpre]) (by rw [hpre]; exact hstop) hk
    rw [hsplit]
    refine ⟨p2, by rw [p7]; push_cast; ring, p5, ?_⟩
    rw [p3, errorLogEntries_append, errorLogEntries_append, herr]
    simp [errorLogEntries, errorEntries, Event.isErrorLog]
  refine ⟨part1, part2, ?_⟩
  intro post hi hstop
  obtain ⟨q1, q2, _, q4⟩ := part2 2 post hi hstop
  have hr : rounds (List.replicate 2 none) ++
      Input.tick :: Input.stop :: Input.execReturns none :: post =
      [Input.tick, Input.execReturns none, Input.tick, Input.execReturns none,
        Input.tick, Input.stop, Input.execReturns none] ++ post := rfl
  rw [hr] at q1 q2 q4
  refine ⟨q1, ?_, q4⟩
  rw [q2]; norm_num

/-- C5 at the default runner: `Stop()` is called during the third execution, and a further
tick is offered afterwards. -/
theorem Stop_during_Execute_witness :
    (0 : Int) < (NewBackgroundCommand { id := 1 } []).interval ∧
    (NewBackgroundCommand { id := 1 } []).isStopped = false ∧
    counterTotal ((NewBackgroundCommand { id := 1 } []).Run
      ([Input.tick, Input.execReturns none, Input.tick, Input.execReturns none,
        Input.tick, Input.stop, Input.execReturns none] ++ [Input.tick])).trace = 3 ∧
    ((NewBackgroundCommand { id := 1 } []).Run
        [Input.tick, Input.execReturns none, Input.tick]).pc =
      PC.executing { h := Histogram.discard, u := Millisecond } ∧
    ((NewBackgroundCommand { id := 1 } []).Run
        [Input.tick, Input.execReturns none, Input.tick]).bg.isStopped = false ∧
    executeCount ((NewBackgroundCommand { id := 1 } []).Run
        [Input.tick, Input.execReturns none, Input.tick]).trace = 2 ∧
    executeCount ((NewBackgroundCommand { id := 1 } []).Run
      ([Input.tick, Input.execReturns none, Input.tick] ++
        Input.stop :: Input.execReturns (some "late") :: [Input.tick])).trace = 2 ∧
    ((NewBackgroundCommand { id := 1 } []).Run (rounds (List.replicate 1 none) ++
        Input.tick :: Input.stop :: Input.execReturns none :: [])).pc = PC.returned :=
  ⟨by decide, by decide,
   ((Stop_during_Execute (NewBackgroundCommand { id := 1 } [])).2.2 [Input.tick]
      (by decide) (by decide)).2.1,
   by decide, by decide, by decide,
   ((Stop_during_Execute (NewBackgroundCommand { id := 1 } [])).1
      [Input.tick, Input.execReturns none, Input.tick] [Input.tick]
      { h := Histogram.discard, u := Millisecond } (some "late") 2
      (by decide) (by decide) (by decide)).2.2.2.2.2.2.1,
   ((Stop_during_Execute (NewBackgroundCommand { id := 1 } [])).2.1 1 []
      (by decide) (by decide)).1⟩

/-- C6: `Stop()` leaves the flag set and changes no other field; a second `Stop()` changes
nothing, before `Run()` (the record and every run from it are the same) and during it (two
calls in a row in a schedule act as one); and once the flag is set neither `Stop()` nor
`Run()` under any schedule unsets it, `Run()` changing no other field of the record. -/
theorem Stop_idempotent_flag_monotone (bg : BackgroundCommand) :
    bg.Stop.isStopped = true ∧
    bg.Stop =
      { command := bg.command, interval := bg.interval, log := bg.log,
        executionsCounter := bg.executionsCounter,
        executionDurationHistogram := bg.executionDurationHistogram, stopped := 1 } ∧
    bg.Stop.Stop = bg.Stop ∧
    (∀ schedule : List Input, bg.Stop.Stop.Run schedule = bg.Stop.Run schedule) ∧
    (∀ pre post : List Input,
      bg.Run (pre ++ Input.stop :: Input.stop :: post) = bg.Run (pre ++ Input.stop :: post)) ∧
    (∀ schedule : List Input, bg.isStopped = true →
      (bg.Run schedule).bg.isStopped = true) ∧
    (∀ pre post : List Input, (bg.Run pre).bg.isStopped = true →
      (bg.Run (pre ++ post)).bg.isStopped = true) ∧
    (∀ (s : RunState) (i : Input), s.bg.isStopped = true →
      (step s i).bg.isStopped = true) ∧
    (∀ schedule : List Input, sameConfig (bg.Run schedule).bg bg) := by
  refine ⟨isStopped_Stop bg, rfl, rfl, fun _ => rfl, ?_, ?_, ?_, step_isStopped, ?_⟩
  · intro pre post
    rw [Run_append, Run_append]
    simp [step, BackgroundCommand.Stop]
  · intro schedule h
    exact foldl_isStopped schedule bg.start (by rw [start_bg]; exact h)
  · intro pre post h
    rw [Run_append]
    exact foldl_isStopped post _ h
  · intro schedule
    obtain ⟨rs, hs⟩ := Run_shape bg schedule
    exact hs.config

/-- C6 at the default runner stopped before `Run()`, and at a run stopped after one tick. -/
theorem Stop_idempotent_flag_monotone_witness :
    (NewBackgroundCommand { id := 1 } []).Stop.isStopped = true ∧
    (((NewBackgroundCommand { id := 1 } []).Stop).Run
      [Input.tick, Input.execReturns none]).bg.isStopped = true ∧
    ((NewBackgroundCommand { id := 1 } []).Run [Input.tick, Input.stop]).bg.isStopped = true ∧
    ((NewBackgroundCommand { id := 1 } []).Run
      ([Input.tick, Input.stop] ++ [Input.execReturns none, Input.tick])).bg.isStopped = true ∧
    (step ((NewBackgroundCommand { id := 1 } []).Run [Input.tick, Input.stop])
      (Input.execReturns none)).bg.isStopped = true :=
  ⟨by decide,
   (Stop_idempotent_flag_monotone (NewBackgroundCommand { id := 1 } []).Stop).2.2.2.2.2.1
      [Input.tick, Input.execReturns none] (by decide),
   by decide,
   (Stop_idempotent_flag_monotone (NewBackgroundCommand { id := 1 } [])).2.2.2.2.2.2.1
      [Input.tick, Input.stop] [Input.execReturns none, Input.tick] (by decide),
   (Stop_idempotent_flag_monotone (NewBackgroundCommand { id := 1 } [])).2.2.2.2.2.2.2.1
      ((NewBackgroundCommand { id := 1 } []).Run [Input.tick, Input.stop])
      (Input.execReturns none) (by decide)⟩

/-- C10: every trace of `Run` has the shape of full passes, each beginning with exactly
one read of the flag that precedes the receive of the tick, followed by the calls of the
current control point, so the flag is read once per evaluation of the loop condition: the
number of reads is the number of full passes plus one once the ticker exists. Hence a set
flag acts only at the next check: from any point of a run at which the flag is set, at most
one further `Execute` begins, whatever follows. And with a positive interval and the flag
unset at the call of `Run()`, if `Stop()` is called while the loop waits for its first tick,
the flag is set with no `Execute` begun, yet the tick that follows starts exactly one
`Execute`, after whose return `Run()` returns. -/
theorem Stop_takes_effect_at_next_check (bg : BackgroundCommand) :
    (∀ schedule : List Input, ∃ rs : List (Option Error),
      (bg.Run schedule).trace = expectedTrace bg rs (bg.Run schedule).pc ∧
      readCount (bg.Run schedule).trace = rs.length + openChecks (bg.Run schedule).pc ∧
      observeCount (bg.Run schedule).trace = rs.length) ∧
    (∀ pre post : List Input, (bg.Run pre).bg.isStopped = true →
      executeCount (bg.Run (pre ++ post)).trace ≤ executeCount (bg.Run pre).trace + 1) ∧
    (∀ r : Option Error, 0 < bg.interval → bg.isStopped = false →
      (bg.Run [Input.stop]).bg.isStopped = true ∧
      (bg.Run [Input.stop]).pc = PC.awaitingTick ∧
      executeCount (bg.Run [Input.stop]).trace = 0 ∧
      executeCount (bg.Run [Input.stop, Input.tick]).trace = 1 ∧
      (bg.Run [Input.stop, Input.tick, Input.execReturns r]).pc = PC.returned ∧
      executeCount (bg.Run [Input.stop, Input.tick, Input.execReturns r]).trace = 1) := by
  refine ⟨?_, ?_, ?_⟩
  · intro schedule
    obtain ⟨rs, hs⟩ := Run_shape bg schedule
    obtain ⟨_, _, _, c4, _, c6⟩ :=
      expectedTrace_counts bg rs (bg.Run schedule).pc hs.panicked_nil
    rw [← hs.trace_eq] at c4 c6
    exact ⟨rs, hs.trace_eq, c6, c4⟩
  · intro pre post h
    rw [Run_append]
    have hb := foldl_stopped_mayBegin post (bg.Run pre) h
    have hm : mayBegin (bg.Run pre).pc ≤ 1 := by
      cases (bg.Run pre).pc <;> simp [mayBegin]
    omega
  · intro r hi hstop
    have h0 : bg.Run [Input.stop] =
        { bg := bg.Stop, pc := PC.awaitingTick,
          trace := expectedTrace bg [] PC.awaitingTick } := by
      rw [BackgroundCommand.Run, start_of_running bg hi hstop]
      simp [step]
    have h1 : bg.Run [Input.stop, Input.tick] =
        { bg := bg.Stop
          pc := PC.executing ((NewTimer bg.executionDurationHistogram).Unit Millisecond)
          trace := expectedTrace bg [] PC.awaitingTick ++
            [Event.tickReceived, Event.counterAdd bg.executionsCounter 1,
             Event.execute bg.command] } := by
      rw [BackgroundCommand.Run, start_of_running bg hi hstop]
      simp [step, BackgroundCommand.Stop]
    have hx0 : executeCount (expectedTrace bg [] PC.awaitingTick) = 0 := by
      simp [expectedTrace, header, iterations, pending, executeCount, Event.isExecute]
    have hx1 : executeCount (bg.Run [Input.stop, Input.tick]).trace = 1 := by
      rw [h1]
      simp only [executeCount_append, hx0]
      simp [executeCount, Event.isExecute]
    have h2 := Run_execReturns bg [Input.stop, Input.tick] _ r (by rw [h1])
    have hst : (bg.Run [Input.stop, Input.tick]).bg.isStopped = true := by
      rw [h1]; exact isStopped_Stop bg
    obtain ⟨_, _, e3, _, _, _⟩ := errorEntries_counts bg.log r
    simp only [List.cons_append, List.nil_append, hst, if_true] at h2
    refine ⟨by rw [h0]; exact isStopped_Stop bg, by rw [h0], by rw [h0]; exact hx0, hx1,
      by rw [h2], ?_⟩
    rw [h2]
    simp only [executeCount_append, hx1, e3]
    simp [pending, executeCount, Event.isExecute]

/-- C10 at the default runner: the flag is set after the first execution, while the loop
waits for the second tick. -/
theorem Stop_takes_effect_at_next_check_witness :
    ((NewBackgroundCommand { id := 1 } []).Run
      [Input.tick, Input.execReturns none, Input.stop]).bg.isStopped = true ∧
    executeCount ((NewBackgroundCommand { id := 1 } []).Run
      ([Input.tick, Input.execReturns none, Input.stop] ++
        [Input.tick, Input.execReturns none, Input.tick, Input.execReturns none])).trace ≤
      executeCount ((NewBackgroundCommand { id := 1 } []).Run
        [Input.tick, Input.execReturns none, Input.stop]).trace + 1 ∧
    (0 : Int) < (NewBackgroundCommand { id := 1 } []).interval ∧
    (NewBackgroundCommand { id := 1 } []).isStopped = false ∧
    executeCount ((NewBackgroundCommand { id := 1 } []).Run
      [Input.stop, Input.tick, Input.execReturns (some "boom")]).trace = 1 :=
  ⟨by decide,
   (Stop_takes_effect_at_next_check (NewBackgroundCommand { id := 1 } [])).2.1
      [Input.tick, Input.execReturns none, Input.stop]
      [Input.tick, Input.execReturns none, Input.tick, Input.execReturns none] (by decide),
   by decide, by decide,
   ((Stop_takes_effect_at_next_check (NewBackgroundCommand { id := 1 } [])).2.2
      (some "boom") (by decide) (by decide)).2.2.2.2.2⟩

end App
